import Mathlib

/-!
Verification development for the client-side core of a browser layout tool
(positional store, undo/redo history, gesture handlers, persistence bridge).

The TypeScript sources are shallowly embedded:
* JS objects holding an `ItemPosition` become a Lean structure whose optional
  fields are `Option`s; a JS property whose value is `undefined` is modelled
  as `none` (every check in the source uses `!== undefined`, `JSON.stringify`
  drops such properties, and `{...obj}` copies them, so value-`undefined` and
  absent are observationally equal).
* The mutable module-level state of `state.ts` (`itemPositions`,
  `positionHistory`, `historyIndex`) becomes an `EditorState` record passed
  and returned explicitly.
* JS numbers are modelled as `ℚ` (all arithmetic appearing here is exact
  decimal arithmetic on small values), integer degree counts as `ℤ`,
  page indices as `ℕ`.
* `JSON.parse(JSON.stringify(x))` (deep copy) is the identity on values.
-/

namespace LayoutTool

/-- Runtime shape of one stored record (interface `ItemPosition` of
`types.ts`; the `id` field comes from `SavedPositionData`, and records loaded
from the server retain it at runtime because `loadPositions` stores
`itemData as ItemPosition` unchanged). -/
structure ItemPosition where
  left : String
  top : String
  width : Option String := none
  height : Option String := none
  pageIndex : Option Nat := none
  opacity : Option ℚ := none
  scale : Option String := none
  rotation : Option Int := none
  parser : Option String := none
  filepath : Option String := none
  id : Option String := none
deriving DecidableEq, Repr

/-- `SavedPositionData` of `types.ts` extends `ItemPosition` with an optional
`id`; at runtime both are plain objects of the same shape. -/
abbrev SavedPositionData := ItemPosition

/-- The `itemPositions` object of `state.ts`: a JS object keyed by item id,
modelled as an association list with unique keys in insertion order. -/
abbrev Store := List (String × ItemPosition)

/-- JS property read `itemPositions[id]`. -/
def objGet : Store → String → Option ItemPosition
  | [], _ => none
  | (k, v) :: rest, key => if k = key then some v else objGet rest key

/-- JS property write `itemPositions[id] = v`: overwrites in place if the key
exists, otherwise appends (JS object insertion order). -/
def objSet : Store → String → ItemPosition → Store
  | [], key, v => [(key, v)]
  | (k, w) :: rest, key, v =>
      if k = key then (key, v) :: rest else (k, w) :: objSet rest key v

/-- JS `delete itemPositions[id]`. -/
def objDelete : Store → String → Store
  | [], _ => []
  | (k, w) :: rest, key => if k = key then rest else (k, w) :: objDelete rest key

/-- JS truthiness of an optional string property (`undefined` and `""` are
falsy, every other string truthy). -/
def strTruthy : Option String → Bool
  | none => false
  | some s => s ≠ ""

/-- A `Partial<ItemPosition>` argument.  For each property, the outer `Option`
distinguishes "property not present in the object literal" (`none`, the spread
keeps the old value) from "property present" (`some`); a present property may
itself carry `undefined` (`some none`), which the spread copies over the old
value, erasing it. -/
structure PositionUpdate where
  left : Option String := none
  top : Option String := none
  width : Option (Option String) := none
  height : Option (Option String) := none
  pageIndex : Option (Option Nat) := none
  opacity : Option (Option ℚ) := none
  scale : Option (Option String) := none
  rotation : Option (Option Int) := none
  parser : Option (Option String) := none
  filepath : Option (Option String) := none
deriving DecidableEq, Repr

/-- The spread `{ ...itemPositions[id], ...positionData }`. -/
def mergePosition (old : ItemPosition) (p : PositionUpdate) : ItemPosition :=
  { left := p.left.getD old.left
    top := p.top.getD old.top
    width := p.width.getD old.width
    height := p.height.getD old.height
    pageIndex := p.pageIndex.getD old.pageIndex
    opacity := p.opacity.getD old.opacity
    scale := p.scale.getD old.scale
    rotation := p.rotation.getD old.rotation
    parser := p.parser.getD old.parser
    filepath := p.filepath.getD old.filepath
    id := old.id }

/-- `if (obj.opacity !== undefined && obj.opacity >= 1.0) delete obj.opacity`
— the opacity cleanup step shared verbatim by `updateItemPosition`
(`state.ts`) and `savePositions` (`persistence.ts`). -/
def cleanupOpacity (r : ItemPosition) : ItemPosition :=
  match r.opacity with
  | some o => if 1 ≤ o then { r with opacity := none } else r
  | none => r

/-- `if (obj.rotation !== undefined && obj.rotation === 0) delete obj.rotation`
— the rotation cleanup step shared by `updateItemPosition` and
`savePositions`. -/
def cleanupRotation (r : ItemPosition) : ItemPosition :=
  match r.rotation with
  | some rot => if rot = 0 then { r with rotation := none } else r
  | none => r

/-- `if (obj.scale !== undefined && obj.scale === '1') delete obj.scale` —
performed by `savePositions` only. -/
def cleanupScale (r : ItemPosition) : ItemPosition :=
  match r.scale with
  | some sc => if sc = "1" then { r with scale := none } else r
  | none => r

/-- `updateItemPosition` of `state.ts`: initialize with defaults when the item
is new, merge the update, then delete a defined `opacity >= 1.0` and a defined
`rotation === 0`.  (The source cleans up only these two fields here; `scale`
is untouched.) -/
def updateItemPosition (s : Store) (id : String) (positionData : PositionUpdate) : Store :=
  let base := (objGet s id).getD { left := "0px", top := "0px" }
  let merged := mergePosition base positionData
  objSet s id (cleanupRotation (cleanupOpacity merged))

/-- `getItemPosition` of `state.ts`. -/
def getItemPosition (s : Store) (id : String) : Option ItemPosition :=
  objGet s id

/-- `deleteItemPosition` of `state.ts`. -/
def deleteItemPosition (s : Store) (id : String) : Store :=
  objDelete s id

/-- `clearItemPositions` of `state.ts` (deletes every key). -/
def clearItemPositions (_s : Store) : Store := []

/-- The per-entry body of the `map` in `savePositions` (`persistence.ts`):
`dataToSave = { ...posData }` (a copy), then delete `opacity` if `>= 1.0`,
`rotation` if `0`, `scale` if `"1"` from the copy, and set `dataToSave.id`
when `filepath` is falsy.  Returns the serialized copy; the store entry
itself is untouched. -/
def saveEntry (id : String) (posData : ItemPosition) : SavedPositionData :=
  let dataToSave := cleanupScale (cleanupRotation (cleanupOpacity posData))
  if strTruthy dataToSave.filepath then dataToSave else { dataToSave with id := some id }

/-- `savePositions` of `persistence.ts`, as a state-passing function: walks
`Object.entries(itemPositions)`, serializes each entry from a copy, and
returns the (unchanged) store entries it traversed together with the
`positionsToSave` array sent to `POST /save-positions`. -/
def savePositionsRun : Store → Store × List SavedPositionData
  | [] => ([], [])
  | (id, posData) :: rest =>
      let dataToSave := saveEntry id posData
      let r := savePositionsRun rest
      ((id, posData) :: r.1, dataToSave :: r.2)

/-- The mutable history state of `state.ts`: `itemPositions`,
`positionHistory` and `historyIndex` (initially `-1`). -/
structure EditorState where
  itemPositions : Store
  positionHistory : List Store
  historyIndex : Int
deriving DecidableEq, Repr

/-- `addStateToHistory` of `state.ts`: deep-copy the store, slice off any
redo-able future (`slice(0, historyIndex + 1)`), push, increment the index,
and when the stack exceeds 100 entries `shift()` the oldest out and decrement
the index.  (`historyIndex ≥ -1` in every reachable state, so
`slice(0, historyIndex + 1)` is the plain prefix `take (historyIndex+1)`.) -/
def addStateToHistory (st : EditorState) : EditorState :=
  let currentState := st.itemPositions
  let hist :=
    if st.historyIndex < (st.positionHistory.length : Int) - 1 then
      st.positionHistory.take (st.historyIndex + 1).toNat
    else st.positionHistory
  let hist := hist ++ [currentState]
  let idx := st.historyIndex + 1
  if 100 < hist.length then
    { st with positionHistory := hist.tail, historyIndex := idx - 1 }
  else
    { st with positionHistory := hist, historyIndex := idx }

/-- `undoHistory` of `state.ts`.  The outer `Option` models abnormal
termination: when the decremented index is out of bounds the source computes
`JSON.parse(JSON.stringify(undefined))`, which throws (`none`).  Otherwise it
clears `itemPositions`, `Object.assign`s the deep-copied snapshot into it,
and returns the copy (`some (state, some snapshot)`); at index 0 it is a
no-op returning `null` (`some (state, none)`). -/
def undoHistory (st : EditorState) : Option (EditorState × Option Store) :=
  if 0 < st.historyIndex then
    let idx := st.historyIndex - 1
    match st.positionHistory.get? idx.toNat with
    | some previousState =>
        some ({ st with historyIndex := idx, itemPositions := previousState },
              some previousState)
    | none => none
  else
    some (st, none)

/-- `redoHistory` of `state.ts` (symmetric to `undoHistory`). -/
def redoHistory (st : EditorState) : Option (EditorState × Option Store) :=
  if st.historyIndex < (st.positionHistory.length : Int) - 1 then
    let idx := st.historyIndex + 1
    match st.positionHistory.get? idx.toNat with
    | some nextState =>
        some ({ st with historyIndex := idx, itemPositions := nextState },
              some nextState)
    | none => none
  else
    some (st, none)

/-- `initializeHistory` of `state.ts`: replaces the stack with one deep copy
of the given state (always called with `itemPositions` itself) and resets the
index to 0. -/
def initializeHistory (st : EditorState) : EditorState :=
  { st with positionHistory := [st.itemPositions], historyIndex := 0 }

/-- ECMAScript number-to-string conversion, restricted to the values this
development produces: on an integral value JS prints the plain integer
(`String(100) = "100"`, template `${100}px = "100px"`), which is what every
concrete input below uses.  (Non-integral rationals never arise in the
statements proved here.) -/
def jsNumToString (q : ℚ) : String :=
  if q.den = 1 then toString q.num else toString q

/-- `updateAndSavePositions` of `persistence.ts`: `addStateToHistory()` then
`savePositions()`.  Returns the new state and the serialized payload. -/
def updateAndSavePositions (st : EditorState) : EditorState × List SavedPositionData :=
  let st := addStateToHistory st
  (st, (savePositionsRun st.itemPositions).2)

/-- The DOM inline style of the item a wheel gesture targets, as read and
written by `handleWheelTransform` (`wheelTransform.ts`):
`style.opacity` (`none` = the empty string, meaning fully opaque) and
`style.left` / `style.top`. -/
structure WheelItemDom where
  styleOpacity : Option ℚ
  styleLeft : String
  styleTop : String
deriving DecidableEq, Repr

/-- `opacityStep` of the Shift+Wheel branch. -/
def opacityStep : ℚ := 5 / 100

/-- The opacity computation of one Shift+Wheel tick:
`parseFloat(style.opacity)` with `1.0` for the empty string, one step up or
down by `deltaY`, clamped into `[0,1]` by `Math.max(0, Math.min(1, x))`. -/
def wheelOpacityValue (styleOpacity : Option ℚ) (deltaY : Int) : ℚ :=
  let currentOpacity := styleOpacity.getD 1
  let currentOpacity :=
    currentOpacity + (if deltaY < 0 then opacityStep else -opacityStep)
  max 0 (min 1 currentOpacity)

/-- One Shift+Wheel tick of `handleWheelTransform` over item `id` sitting on
page `pageIndex`: ensure the item is tracked (with `style.left || '0px'`
defaults), compute the clamped opacity, write the style (`''` when the value
reached 1), store the value (`undefined` when it reached 1) together with the
current `left`/`top`/`pageIndex`, then `updateAndSavePositions()`. -/
def handleWheelOpacityTick (st : EditorState) (dom : WheelItemDom)
    (id : String) (pageIndex : Nat) (deltaY : Int) : EditorState × WheelItemDom :=
  let ensured :=
    if (getItemPosition st.itemPositions id).isNone then
      updateItemPosition st.itemPositions id
        { left := some (if dom.styleLeft = "" then "0px" else dom.styleLeft)
          top := some (if dom.styleTop = "" then "0px" else dom.styleTop)
          pageIndex := some (some pageIndex) }
    else st.itemPositions
  let st := { st with itemPositions := ensured }
  let v := wheelOpacityValue dom.styleOpacity deltaY
  let newStyleOpacity := if v < 1 then some v else none
  let updatedPositionData : PositionUpdate :=
    { opacity := some (if v < 1 then some v else none)
      left := some dom.styleLeft
      top := some dom.styleTop
      pageIndex := some (some pageIndex) }
  let st := { st with itemPositions := updateItemPosition st.itemPositions id updatedPositionData }
  ((updateAndSavePositions st).1, { dom with styleOpacity := newStyleOpacity })

/-- A sequence of Shift+Wheel ticks (left fold of `handleWheelOpacityTick`). -/
def wheelOpacityTicks (st : EditorState) (dom : WheelItemDom)
    (id : String) (pageIndex : Nat) : List Int → EditorState × WheelItemDom
  | [] => (st, dom)
  | d :: ds =>
      let r := handleWheelOpacityTick st dom id pageIndex d
      wheelOpacityTicks r.1 r.2 id pageIndex ds

/-- The `style.opacity` value after a sequence of Shift+Wheel ticks (each
tick reads the previous style, steps and clamps it, and writes back the new
value, or the empty string when it reached 1). -/
def styleAfterTicks (o : Option ℚ) : List Int → Option ℚ
  | [] => o
  | d :: ds =>
      styleAfterTicks
        (if wheelOpacityValue o d < 1 then some (wheelOpacityValue o d) else none) ds

/-- Outcome of the page-targeting step of `applyPositions`
(`initialization.ts`) for one item. -/
inductive PagePlacement where
  | placed (pageIndex : Nat) (warned : Bool)
  | skipped
deriving DecidableEq, Repr

/-- The page-targeting step of `applyPositions` for one item: `pages` is the
set of indices `k` for which an element with id `page-k` exists.  The target
is `pos.pageIndex ?? 0`; if `page-target` is missing the source warns and
falls back to `page-0`; if `page-0` is missing too it logs an error and
skips the item. -/
def resolveTargetPage (pages : List Nat) (pageIndex : Option Nat) : PagePlacement :=
  let targetPageIndex := pageIndex.getD 0
  if targetPageIndex ∈ pages then PagePlacement.placed targetPageIndex false
  else if 0 ∈ pages then PagePlacement.placed 0 true
  else PagePlacement.skipped

/-- Viewport-relative bounding box origin of a page container
(`getBoundingClientRect()`), as used by `addNewItemToPage`. -/
structure PageRect where
  left : ℚ
  top : ℚ
deriving DecidableEq, Repr

/-- The `positionData` object built by `addNewItemToPage` (`fileDrop.ts`) for
a file dropped at viewport point `(dropX, dropY)` over the page container
with index `pageIndex` and bounding box `rect` (the source recovers the index
by `parseInt(targetPage.id.split('-')[1])` from the id `page-<index>`):
`left/top` are the drop point minus the page origin, `width`/`height` only
when the parser reported both, and literal `opacity: 1, scale: '1',
rotation: 0`. -/
def addNewItemPositionData (filePath parserName : String)
    (dropX dropY : ℚ) (rect : PageRect) (pageIndex : Nat)
    (wh : Option (ℚ × ℚ)) : PositionUpdate :=
  let initialLeft := dropX - rect.left
  let initialTop := dropY - rect.top
  let base : PositionUpdate :=
    { left := some (jsNumToString initialLeft ++ "px")
      top := some (jsNumToString initialTop ++ "px")
      pageIndex := some (some pageIndex)
      parser := some (some parserName)
      filepath := some (some filePath)
      opacity := some (some 1)
      scale := some (some "1")
      rotation := some (some 0) }
  match wh with
  | some (w, h) =>
      { base with
        width := some (some (jsNumToString w ++ "px"))
        height := some (some (jsNumToString h ++ "px")) }
  | none => base

/-- The store/history effect of `handleDrop` (`dragDrop.ts`): one
`updateItemPosition` with the final drop data, then
`updateAndSavePositions`. -/
def handleDropState (st : EditorState) (id : String) (p : PositionUpdate) : EditorState :=
  let st := { st with itemPositions := updateItemPosition st.itemPositions id p }
  (updateAndSavePositions st).1

/-- The store/history effect of the deletion branch of `handleKeyDown`
(`dragDrop.ts`): `deleteItemPosition` then `savePositions()` — no history
push. -/
def handleDeleteState (st : EditorState) (id : String) : EditorState × List SavedPositionData :=
  let st := { st with itemPositions := deleteItemPosition st.itemPositions id }
  (st, (savePositionsRun st.itemPositions).2)

/-- The store-, history- and save-relevant primitive operations a handler
performs, in program order. -/
inductive CoreOp where
  | mutateStore
  | record
  | save
deriving DecidableEq, Repr

/-- Operation trace of `updateAndSavePositions` (`persistence.ts`):
`addStateToHistory()` then `savePositions()`. -/
def updateAndSavePositionsOps : List CoreOp := [CoreOp.record, CoreOp.save]

/-- Operation trace of `handleDrop` (`dragDrop.ts`): `updateItemPosition`
then `updateAndSavePositions`. -/
def handleDropOps : List CoreOp := CoreOp.mutateStore :: updateAndSavePositionsOps

/-- Operation trace of one modifier-held wheel tick (`wheelTransform.ts`):
an extra `updateItemPosition` when the item was untracked, the branch's
`updateItemPosition`, then `updateAndSavePositions`. -/
def handleWheelTickOps (positionMissing : Bool) : List CoreOp :=
  (if positionMissing then [CoreOp.mutateStore] else []) ++
    CoreOp.mutateStore :: updateAndSavePositionsOps

/-- Operation trace of `addNewItemToPage` (`fileDrop.ts`): store the new
record, then `updateAndSavePositions`. -/
def addNewItemOps : List CoreOp := CoreOp.mutateStore :: updateAndSavePositionsOps

/-- Operation trace of the deletion branch of `handleKeyDown`
(`dragDrop.ts`): `deleteItemPosition` then a direct `savePositions()`. -/
def handleDeleteOps : List CoreOp := [CoreOp.mutateStore, CoreOp.save]

/-- Helper of `savesPrecededByRecord`: scans the trace remembering the
previous operation. -/
def savesPrecededAux : Option CoreOp → List CoreOp → Bool
  | _, [] => true
  | prev, CoreOp.save :: rest =>
      (match prev with
       | some CoreOp.record => true
       | _ => false) && savesPrecededAux (some CoreOp.save) rest
  | _, op :: rest => savesPrecededAux (some op) rest

/-- Every `save` in the trace is immediately preceded by a `record`. -/
def savesPrecededByRecord (ops : List CoreOp) : Bool :=
  savesPrecededAux none ops

/-- A `.draggable-item` element found in the DOM, as far as
`initializeDefaultPositions` inspects it: its id (`""` when the element has
none) and its `offsetHeight`. -/
structure DomItem where
  id : String
  offsetHeight : ℚ
deriving DecidableEq, Repr

/-- The DOM as far as load/arrange inspects it: the `.page-container`
elements in document order (`(offsetWidth, offsetHeight)` each; the element
with id `page-k` is the one at index `k`) and the `.draggable-item`
elements in document order. -/
structure Dom where
  pages : List (ℚ × ℚ)
  items : List DomItem
deriving DecidableEq, Repr

/-- The mutable layout cursor of `initializeDefaultPositions`. -/
structure ArrangeCursor where
  currentTop : ℚ
  currentLeft : ℚ
  currentPageIndex : Nat
deriving DecidableEq, Repr

/-- The per-item step of `initializeDefaultPositions` (`initialization.ts`)
for the store and cursor: items without id, and items already tracked in the
store, leave both unchanged (the source only moves the latter in the DOM);
an untracked item is placed by column flow (wrap to the second column, then
to the next page, and when pages run out to the last page's second column),
its position upserted, and the cursor advanced.  `containerWidth`,
`containerHeight` and `columnWidth` are computed once from the first page
container and never refreshed, exactly as in the source. -/
def arrangeStep (pages : List (ℚ × ℚ)) (acc : Store × ArrangeCursor) (item : DomItem) :
    Store × ArrangeCursor :=
  let padding : ℚ := 20
  let defaultItemHeight : ℚ := 100
  let itemSpacing : ℚ := 15
  let containerWidth := ((pages.get? 0).getD (0, 0)).1
  let containerHeight := ((pages.get? 0).getD (0, 0)).2
  let columnWidth := (containerWidth - 3 * padding) / 2
  if item.id = "" then acc
  else if (objGet acc.1 item.id).isSome then acc
  else
    let cur := acc.2
    let elementHeight := if item.offsetHeight = 0 then defaultItemHeight else item.offsetHeight
    let cur :=
      if containerHeight - padding < cur.currentTop + elementHeight then
        let movedColumn : ArrangeCursor :=
          { cur with currentLeft := cur.currentLeft + columnWidth + padding, currentTop := padding }
        if containerWidth - padding < movedColumn.currentLeft + columnWidth then
          let nextPageIndex := movedColumn.currentPageIndex + 1
          if nextPageIndex < pages.length then
            { currentLeft := padding, currentTop := padding, currentPageIndex := nextPageIndex }
          else
            { currentLeft := padding + columnWidth + padding, currentTop := padding,
              currentPageIndex := pages.length - 1 }
        else movedColumn
      else cur
    let store :=
      updateItemPosition acc.1 item.id
        { left := some (jsNumToString cur.currentLeft ++ "px")
          top := some (jsNumToString cur.currentTop ++ "px")
          pageIndex := some (some cur.currentPageIndex) }
    (store, { cur with currentTop := cur.currentTop + elementHeight + itemSpacing })

/-- `initializeDefaultPositions` of `initialization.ts`: bail out (without
touching history) when no page container exists; otherwise flow every
untracked draggable item into columns starting at `(20, 20)` on page 0,
upserting each computed position, and finally initialize history with the
resulting state.  It never saves. -/
def initializeDefaultPositions (dom : Dom) (st : EditorState) : EditorState :=
  if dom.pages.length = 0 then st
  else
    let start : Store × ArrangeCursor :=
      (st.itemPositions, { currentTop := 20, currentLeft := 20, currentPageIndex := 0 })
    let result := dom.items.foldl (arrangeStep dom.pages) start
    initializeHistory { st with itemPositions := result.1 }

/-- `sanitizeFilename` of `utils.js`: strip a final `.ext` (one or more
characters none of which is `.` or `/`), replace every character outside
`[a-zA-Z0-9-]` with `_`, and lowercase. -/
def sanitizeFilename (filename : String) : String :=
  let parts := filename.splitOn "."
  let withoutExt :=
    if 2 ≤ parts.length ∧ parts.getLast! ≠ "" ∧ ¬ (parts.getLast!.contains '/') then
      String.intercalate "." (parts.dropLast)
    else filename
  let replaced := String.mk (withoutExt.toList.map (fun c =>
    if c.isAlphanum ∨ c = '-' then c else '_'))
  replaced.toLower

/-- `filepath.split(/[\\/]/).pop()`: the final path segment (possibly
empty). -/
def lastPathSegment (path : String) : String :=
  (path.split (fun c => c = '/' ∨ c = '\\')).getLast!

/-- The id under which `loadPositions` stores a fetched record: the record's
own truthy `id` if any, else `sanitizeFilename` of the filename extracted
from `filepath`, else a fresh `unknown_…` id (the source appends a random
suffix; `k` stands in for it, its exact value is never relied upon). -/
def loadedItemId (itemData : SavedPositionData) (k : Nat) : String :=
  if strTruthy itemData.id then itemData.id.getD ""
  else if strTruthy itemData.filepath then
    let filename := lastPathSegment (itemData.filepath.getD "")
    if filename ≠ "" then sanitizeFilename filename
    else "unknown_" ++ toString k
  else "unknown_" ++ toString k

/-- The `forEach` populate loop of `loadPositions`.  A list element `none`
models a JSON `null` (or other non-object) array entry: reading
`itemData.filepath` from it throws a `TypeError`, aborting the loop with the
store as populated so far (second component `true`).  Records lacking both a
truthy `filepath` and a truthy `id` are skipped with a warning. -/
def populateLoadedPositions : List (Option SavedPositionData) → Store → Nat → Store × Bool
  | [], store, _ => (store, false)
  | none :: _, store, _ => (store, true)
  | some itemData :: rest, store, k =>
      if ¬ strTruthy itemData.filepath ∧ ¬ strTruthy itemData.id then
        populateLoadedPositions rest store (k + 1)
      else
        let itemId := loadedItemId itemData k
        populateLoadedPositions rest (objSet store itemId itemData) (k + 1)

/-- The outcome of `fetch('/load-positions')` as `loadPositions`
distinguishes it: a rejected fetch, a 404 (treated as "nothing persisted"),
another non-OK status (thrown, then caught), or a parsed 200 body whose
`objects` array may contain `null` entries. -/
inductive LoadFetch where
  | fetchFailure
  | notFound
  | httpError
  | okJson (objects : List (Option SavedPositionData))

/-- `loadPositions` of `persistence.ts`, projected onto store and history
(`applyPositions` only reads the store and touches the DOM, so it is the
identity here): a 404 or any thrown error falls back to
`initializeDefaultPositions`; on success the store is cleared, populated
from the fetched array, and history is initialized with the loaded state.
A throw while populating is caught by the surrounding `try`, falling back to
`initializeDefaultPositions` without clearing what was already populated. -/
def loadPositions (dom : Dom) (st : EditorState) (f : LoadFetch) : EditorState :=
  match f with
  | LoadFetch.notFound => initializeDefaultPositions dom st
  | LoadFetch.fetchFailure => initializeDefaultPositions dom st
  | LoadFetch.httpError => initializeDefaultPositions dom st
  | LoadFetch.okJson objects =>
      let st := { st with itemPositions := clearItemPositions st.itemPositions }
      let populated := populateLoadedPositions objects st.itemPositions 0
      let st := { st with itemPositions := populated.1 }
      if populated.2 then initializeDefaultPositions dom st
      else initializeHistory st

/-- Mutate-then-record chain: initialize history with store `s0`, then for
each `m` in `ms` set the store to `m` (a gesture mutation) and call
`addStateToHistory` — the claim's "sequential `record()` calls", each
snapshotting the store at call time. -/
def recordChain (s0 : Store) (ms : List Store) : EditorState :=
  ms.foldl (fun st m => addStateToHistory { st with itemPositions := m })
    (initializeHistory { itemPositions := s0, positionHistory := [], historyIndex := -1 })

/-- The last 100 entries of a snapshot list (`maxHistorySize = 100`). -/
def keepLast (l : List Store) : List Store := l.drop (l.length - 100)

/-- `undoHistory` iterated `n` times; `none` as soon as one undo threw. -/
def undoN : Nat → EditorState → Option EditorState
  | 0, st => some st
  | n + 1, st => (undoHistory st).bind (fun r => undoN n r.1)

/-! ### Concrete inputs used by counterexamples and witnesses -/

/-- The literal `positionData` built by a file drop of `a.html` at (150, 300)
over page 1 with origin (50, 20) — it contains `scale: '1'`. -/
def c1DropData : PositionUpdate :=
  addNewItemPositionData "/user/a.html" "html" 150 300 ⟨50, 20⟩ 1 none

/-- The record `upsert_normalizes_opacity_rotation` is instantiated with in
its witness: `opacity: 2` and `rotation: 0` were stripped, `scale: "1"`
kept. -/
def c1WitnessRecord : ItemPosition :=
  { left := "1px", top := "2px", scale := some "1" }

/-- A one-item record used as concrete input for the deletion
counterexample. -/
def c3Record : ItemPosition := { left := "1px", top := "2px", filepath := some "/user/a.html" }

/-- State holding one item, with that state already recorded in history. -/
def c3State : EditorState :=
  { itemPositions := [("a", c3Record)],
    positionHistory := [[("a", c3Record)]],
    historyIndex := 0 }

/-- Starting state for the wheel-opacity scenarios: one tracked item `x`
with no opacity field. -/
def c4State : EditorState :=
  { itemPositions := updateItemPosition [] "x" { left := some "10px", top := some "10px" },
    positionHistory := [],
    historyIndex := -1 }

/-- The item's DOM styles at the start: empty opacity (fully opaque). -/
def c4Dom : WheelItemDom := { styleOpacity := none, styleLeft := "10px", styleTop := "10px" }

/-- A record as fetched from the server, carrying an explicit id. -/
def c5LoadedRecord : SavedPositionData :=
  { left := "10px", top := "10px", id := some "a",
    filepath := some "/user/a.html", parser := some "html" }

/-- A DOM with one A4-sized page container and no draggable items. -/
def c5EmptyDom : Dom := { pages := [(595, 842)], items := [] }

/-- The pristine state before the initial load. -/
def c5FreshState : EditorState :=
  { itemPositions := [], positionHistory := [], historyIndex := -1 }

/-- A DOM with one page container and one unpositioned draggable item. -/
def c5WitnessDom : Dom :=
  { pages := [(595, 842)], items := [{ id := "a", offsetHeight := 50 }] }

/-- Concrete 3-deep history (after one undo, so the index sits at 1). -/
def c8State : EditorState :=
  { itemPositions := [("a", { left := "2px", top := "1px" })],
    positionHistory :=
      [[("a", { left := "1px", top := "1px" })],
       [("a", { left := "2px", top := "1px" })],
       [("a", { left := "3px", top := "1px" })]],
    historyIndex := 1 }

/-- New state C recorded from the undone position. -/
def c8NewState : Store := [("a", { left := "9px", top := "9px" })]

/-! ## Helper lemmas -/

theorem objGet_objSet_self (s : Store) (k : String) (v : ItemPosition) :
    objGet (objSet s k v) k = some v := by
  induction s with
  | nil => simp [objSet, objGet]
  | cons hd tl ih =>
      by_cases h : hd.1 = k
      · simp [objSet, objGet, h]
      · simp [objSet, objGet, h, ih]

theorem objGet_objSet_isSome (s : Store) (k : String) (v : ItemPosition) (x : String)
    (h : (objGet s x).isSome) : (objGet (objSet s k v) x).isSome := by
  induction s with
  | nil => simp [objGet] at h
  | cons hd tl ih =>
      obtain ⟨a, b⟩ := hd
      by_cases hk : a = k
      · by_cases hx : a = x
        · subst hk; subst hx
          simp [objSet, objGet]
        · subst hk
          simp only [objSet, if_pos rfl]
          simp only [objGet, if_neg hx] at h ⊢
          exact h
      · by_cases hx : a = x
        · subst hx
          simp [objSet, objGet, hk]
        · simp only [objGet, if_neg hx] at h
          simp only [objSet, if_neg hk, objGet, if_neg hx]
          exact ih h

theorem cleanupOpacity_opacity_lt_one (r : ItemPosition) (q : ℚ)
    (h : (cleanupOpacity r).opacity = some q) : q < 1 := by
  unfold cleanupOpacity at h
  rcases ho : r.opacity with _ | o <;> simp only [ho] at h
  · exact absurd h (by simp [ho])
  · by_cases h1 : (1 : ℚ) ≤ o
    · simp [h1] at h
    · simp only [if_neg h1, ho, Option.some.injEq] at h
      subst h
      exact lt_of_not_le h1

theorem cleanupRotation_opacity (r : ItemPosition) :
    (cleanupRotation r).opacity = r.opacity := by
  unfold cleanupRotation
  rcases hr : r.rotation with _ | rot
  · rfl
  · by_cases h0 : rot = 0 <;> simp [h0]

theorem cleanupOpacity_rotation (r : ItemPosition) :
    (cleanupOpacity r).rotation = r.rotation := by
  unfold cleanupOpacity
  rcases ho : r.opacity with _ | o
  · rfl
  · by_cases h1 : (1 : ℚ) ≤ o <;> simp [h1]

theorem cleanupRotation_rotation_ne_zero (r : ItemPosition) (z : Int)
    (h : (cleanupRotation r).rotation = some z) : z ≠ 0 := by
  unfold cleanupRotation at h
  rcases hr : r.rotation with _ | rot <;> simp only [hr] at h
  · exact absurd h (by simp [hr])
  · by_cases h0 : rot = 0
    · simp [h0] at h
    · simp only [if_neg h0, hr, Option.some.injEq] at h
      subst h
      exact h0

theorem cleanupScale_scale_ne_one (r : ItemPosition) :
    (cleanupScale r).scale ≠ some "1" := by
  unfold cleanupScale
  rcases hs : r.scale with _ | sc
  · simp [hs]
  · by_cases h1 : sc = "1" <;> simp [h1, hs]

theorem cleanupOpacity_scale (r : ItemPosition) :
    (cleanupOpacity r).scale = r.scale := by
  unfold cleanupOpacity
  rcases ho : r.opacity with _ | o
  · rfl
  · by_cases h1 : (1 : ℚ) ≤ o <;> simp [h1]

theorem cleanupRotation_scale (r : ItemPosition) :
    (cleanupRotation r).scale = r.scale := by
  unfold cleanupRotation
  rcases hr : r.rotation with _ | rot
  · rfl
  · by_cases h0 : rot = 0 <;> simp [h0]

theorem saveEntry_scale_ne_one (id : String) (r : ItemPosition) :
    (saveEntry id r).scale ≠ some "1" := by
  unfold saveEntry
  by_cases h : strTruthy (cleanupScale (cleanupRotation (cleanupOpacity r))).filepath
  · simpa [h] using cleanupScale_scale_ne_one (cleanupRotation (cleanupOpacity r))
  · simpa [h] using cleanupScale_scale_ne_one (cleanupRotation (cleanupOpacity r))

theorem cleanupOpacity_left (r : ItemPosition) : (cleanupOpacity r).left = r.left := by
  unfold cleanupOpacity
  rcases ho : r.opacity with _ | o
  · rfl
  · by_cases h1 : (1 : ℚ) ≤ o <;> simp [h1]

theorem cleanupRotation_left (r : ItemPosition) : (cleanupRotation r).left = r.left := by
  unfold cleanupRotation
  rcases hr : r.rotation with _ | rot
  · rfl
  · by_cases h0 : rot = 0 <;> simp [h0]

theorem cleanupOpacity_top (r : ItemPosition) : (cleanupOpacity r).top = r.top := by
  unfold cleanupOpacity
  rcases ho : r.opacity with _ | o
  · rfl
  · by_cases h1 : (1 : ℚ) ≤ o <;> simp [h1]

theorem cleanupRotation_top (r : ItemPosition) : (cleanupRotation r).top = r.top := by
  unfold cleanupRotation
  rcases hr : r.rotation with _ | rot
  · rfl
  · by_cases h0 : rot = 0 <;> simp [h0]

theorem cleanupOpacity_pageIndex (r : ItemPosition) :
    (cleanupOpacity r).pageIndex = r.pageIndex := by
  unfold cleanupOpacity
  rcases ho : r.opacity with _ | o
  · rfl
  · by_cases h1 : (1 : ℚ) ≤ o <;> simp [h1]

theorem cleanupRotation_pageIndex (r : ItemPosition) :
    (cleanupRotation r).pageIndex = r.pageIndex := by
  unfold cleanupRotation
  rcases hr : r.rotation with _ | rot
  · rfl
  · by_cases h0 : rot = 0 <;> simp [h0]

/-- The record stored by `updateItemPosition` for `id`: the cleaned-up merge
of the previous record (or the fresh default) with the update. -/
theorem updateItemPosition_get (s : Store) (id : String) (p : PositionUpdate) :
    objGet (updateItemPosition s id p) id =
      some (cleanupRotation (cleanupOpacity
        (mergePosition ((objGet s id).getD { left := "0px", top := "0px" }) p))) := by
  unfold updateItemPosition
  exact objGet_objSet_self _ _ _

theorem getLast?_append_singleton {α : Type} (l : List α) (a : α) :
    (l ++ [a]).getLast? = some a := by
  rw [List.getLast?_append]
  rfl

theorem getLast?_tail_append_singleton {α : Type} (l : List α) (a : α)
    (h : 100 < (l ++ [a]).length) : (l ++ [a]).tail.getLast? = some a := by
  cases l with
  | nil => simp at h
  | cons x xs =>
      simp only [List.cons_append, List.tail_cons]
      exact getLast?_append_singleton xs a

/-- `addStateToHistory` never touches the live store. -/
theorem addStateToHistory_itemPositions (st : EditorState) :
    (addStateToHistory st).itemPositions = st.itemPositions := by
  dsimp only [addStateToHistory]
  split <;> split <;> rfl

/-- The newest snapshot after `addStateToHistory` is the store at the time of
the call. -/
theorem addStateToHistory_getLast (st : EditorState) :
    (addStateToHistory st).positionHistory.getLast? = some st.itemPositions := by
  dsimp only [addStateToHistory]
  split <;> split
  · rename_i h
    exact getLast?_tail_append_singleton _ _ h
  · exact getLast?_append_singleton _ _
  · rename_i h
    exact getLast?_tail_append_singleton _ _ h
  · exact getLast?_append_singleton _ _

theorem arrangeStep_preserves (pages : List (ℚ × ℚ)) (acc : Store × ArrangeCursor)
    (item : DomItem) (x : String) (h : (objGet acc.1 x).isSome) :
    (objGet (arrangeStep pages acc item).1 x).isSome := by
  dsimp only [arrangeStep]
  by_cases h1 : item.id = ""
  · simpa [h1] using h
  · by_cases h2 : (objGet acc.1 item.id).isSome = true
    · simpa [h1, h2] using h
    · simp only [h1, h2, if_neg, if_false, ite_false]
      unfold updateItemPosition
      exact objGet_objSet_isSome _ _ _ _ h

theorem arrangeStep_self (pages : List (ℚ × ℚ)) (acc : Store × ArrangeCursor)
    (item : DomItem) (h1 : item.id ≠ "") :
    (objGet (arrangeStep pages acc item).1 item.id).isSome := by
  dsimp only [arrangeStep]
  by_cases h2 : (objGet acc.1 item.id).isSome = true
  · simp [h1, h2]
  · simp only [h1, h2, if_neg, if_false, ite_false]
    unfold updateItemPosition
    simp [objGet_objSet_self]

theorem arrangeFold_preserves (pages : List (ℚ × ℚ)) (items : List DomItem)
    (acc : Store × ArrangeCursor) (x : String) (h : (objGet acc.1 x).isSome) :
    (objGet (items.foldl (arrangeStep pages) acc).1 x).isSome := by
  induction items generalizing acc with
  | nil => exact h
  | cons i is ih =>
      rw [List.foldl_cons]
      exact ih _ (arrangeStep_preserves pages acc i x h)

theorem arrangeFold_covers (pages : List (ℚ × ℚ)) (items : List DomItem)
    (acc : Store × ArrangeCursor) (item : DomItem)
    (hmem : item ∈ items) (hid : item.id ≠ "") :
    (objGet (items.foldl (arrangeStep pages) acc).1 item.id).isSome := by
  induction items generalizing acc with
  | nil => cases hmem
  | cons i is ih =>
      rw [List.foldl_cons]
      rcases List.mem_cons.mp hmem with heq | hmem2
      · subst heq
        exact arrangeFold_preserves pages is _ _ (arrangeStep_self pages acc item hid)
      · exact ih _ hmem2

/-- When at least one page container exists, `initializeDefaultPositions`
initializes history with the resulting store, and every draggable DOM item
with an id ends up positioned in it. -/
theorem initializeDefaultPositions_spec (dom : Dom) (st : EditorState)
    (hp : dom.pages ≠ []) :
    (initializeDefaultPositions dom st).historyIndex = 0 ∧
    (initializeDefaultPositions dom st).positionHistory =
      [(initializeDefaultPositions dom st).itemPositions] ∧
    (∀ item ∈ dom.items, item.id ≠ "" →
      (objGet (initializeDefaultPositions dom st).itemPositions item.id).isSome) := by
  have hlen : ¬ dom.pages.length = 0 := by simpa [List.length_eq_zero] using hp
  unfold initializeDefaultPositions
  rw [if_neg hlen]
  refine ⟨rfl, rfl, ?_⟩
  intro item hmem hid
  exact arrangeFold_covers dom.pages dom.items _ item hmem hid

theorem EditorState.ext2 (a b : EditorState)
    (h1 : a.itemPositions = b.itemPositions)
    (h2 : a.positionHistory = b.positionHistory)
    (h3 : a.historyIndex = b.historyIndex) : a = b := by
  cases a
  cases b
  cases h1
  cases h2
  cases h3
  rfl

/-- `addStateToHistory` called with the index at the top of the stack (the
situation after init or a previous record): pushes the current store and
keeps only the newest 100 snapshots, the index pointing at the new top. -/
theorem addStateToHistory_top (st : EditorState) (m : Store)
    (hidx : st.historyIndex = (st.positionHistory.length : Int) - 1)
    (hlen1 : 1 ≤ st.positionHistory.length)
    (hlen2 : st.positionHistory.length ≤ 100) :
    addStateToHistory { st with itemPositions := m } =
      { itemPositions := m,
        positionHistory := keepLast (st.positionHistory ++ [m]),
        historyIndex := ((keepLast (st.positionHistory ++ [m])).length : Int) - 1 } := by
  have hc : ¬ (st.historyIndex < (st.positionHistory.length : Int) - 1) := by omega
  by_cases hsh : 100 < (st.positionHistory ++ [m]).length
  · have hkeep : keepLast (st.positionHistory ++ [m]) = (st.positionHistory ++ [m]).tail := by
      unfold keepLast
      rw [← List.drop_one]
      congr 1
      simp only [List.length_append, List.length_cons, List.length_nil] at hsh ⊢
      omega
    refine EditorState.ext2 _ _ ?_ ?_ ?_
    · exact addStateToHistory_itemPositions _
    · show (addStateToHistory { st with itemPositions := m }).positionHistory = _
      dsimp only [addStateToHistory]
      rw [if_neg hc, if_pos hsh, hkeep]
    · show (addStateToHistory { st with itemPositions := m }).historyIndex = _
      dsimp only [addStateToHistory]
      rw [if_neg hc, if_pos hsh, hkeep]
      show st.historyIndex + 1 - 1 = _
      rw [← List.drop_one]
      simp only [List.length_drop, List.length_append, List.length_cons, List.length_nil]
      omega
  · have hkeep : keepLast (st.positionHistory ++ [m]) = st.positionHistory ++ [m] := by
      unfold keepLast
      have hz : (st.positionHistory ++ [m]).length - 100 = 0 := by
        simp only [List.length_append, List.length_cons, List.length_nil] at hsh ⊢
        omega
      rw [hz, List.drop_zero]
    refine EditorState.ext2 _ _ ?_ ?_ ?_
    · exact addStateToHistory_itemPositions _
    · show (addStateToHistory { st with itemPositions := m }).positionHistory = _
      dsimp only [addStateToHistory]
      rw [if_neg hc, if_neg hsh, hkeep]
    · show (addStateToHistory { st with itemPositions := m }).historyIndex = _
      dsimp only [addStateToHistory]
      rw [if_neg hc, if_neg hsh, hkeep]
      show st.historyIndex + 1 = _
      simp only [List.length_append, List.length_cons, List.length_nil]
      omega

theorem keepLast_length_le (l : List Store) : (keepLast l).length ≤ 100 := by
  unfold keepLast
  simp only [List.length_drop]
  omega

theorem keepLast_length_pos (l : List Store) (h : l ≠ []) : 1 ≤ (keepLast l).length := by
  unfold keepLast
  simp only [List.length_drop]
  have : 0 < l.length := List.length_pos.mpr h
  omega

theorem keepLast_append_keepLast (a b : List Store) :
    keepLast (keepLast a ++ b) = keepLast (a ++ b) := by
  unfold keepLast
  rw [← List.drop_append_of_le_length (Nat.sub_le a.length 100)]
  rw [List.drop_drop]
  rw [show (a.length - 100) + (((a ++ b).drop (a.length - 100)).length - 100)
        = (a ++ b).length - 100 by
      simp only [List.length_drop, List.length_append]
      omega]

theorem keepLast_getLast (a : List Store) (m : Store) :
    (keepLast (a ++ [m])).getLast? = some m := by
  unfold keepLast
  have hle : (a ++ [m]).length - 100 ≤ a.length := by
    simp only [List.length_append, List.length_cons, List.length_nil]
    omega
  rw [List.drop_append_of_le_length hle]
  exact getLast?_append_singleton _ _

/-- Invariant of the record chain: folding mutate-then-record steps from a
state whose index is at the top yields the last-100 suffix of all snapshots
ever pushed, with the index at the new top and the live store equal to the
newest snapshot. -/
theorem recordChain_fold (ms : List Store) (st : EditorState)
    (hidx : st.historyIndex = (st.positionHistory.length : Int) - 1)
    (hlen1 : 1 ≤ st.positionHistory.length)
    (hlen2 : st.positionHistory.length ≤ 100)
    (htop : st.positionHistory.getLast? = some st.itemPositions) :
    (ms.foldl (fun st m => addStateToHistory { st with itemPositions := m }) st).positionHistory
        = keepLast (st.positionHistory ++ ms) ∧
    (ms.foldl (fun st m => addStateToHistory { st with itemPositions := m }) st).historyIndex
        = (((ms.foldl (fun st m => addStateToHistory { st with itemPositions := m })
            st).positionHistory.length : Int)) - 1 ∧
    1 ≤ (ms.foldl (fun st m => addStateToHistory { st with itemPositions := m })
        st).positionHistory.length ∧
    (ms.foldl (fun st m => addStateToHistory { st with itemPositions := m })
        st).positionHistory.length ≤ 100 ∧
    (ms.foldl (fun st m => addStateToHistory { st with itemPositions := m })
          st).positionHistory.getLast?
        = some (ms.foldl (fun st m => addStateToHistory { st with itemPositions := m })
            st).itemPositions := by
  induction ms generalizing st with
  | nil =>
      simp only [List.foldl_nil]
      refine ⟨?_, hidx, hlen1, hlen2, htop⟩
      unfold keepLast
      have hz : (st.positionHistory ++ []).length - 100 = 0 := by
        simp only [List.append_nil]
        omega
      rw [hz, List.drop_zero, List.append_nil]
  | cons m ms ih =>
      rw [List.foldl_cons]
      have hstep := addStateToHistory_top st m hidx hlen1 hlen2
      rw [hstep]
      have hne : st.positionHistory ++ [m] ≠ [] := by simp
      obtain ⟨ha, hb, hc, hd, he⟩ :=
        ih { itemPositions := m,
             positionHistory := keepLast (st.positionHistory ++ [m]),
             historyIndex := ((keepLast (st.positionHistory ++ [m])).length : Int) - 1 }
          rfl (keepLast_length_pos _ hne) (keepLast_length_le _) (keepLast_getLast _ _)
      refine ⟨?_, hb, hc, hd, he⟩
      rw [ha, keepLast_append_keepLast]
      congr 1
      simp only [List.append_assoc, List.singleton_append]

/-- Iterated undo never fails while the index is a valid position. -/
theorem undoN_isSome (k : Nat) (st : EditorState)
    (h0 : 0 ≤ st.historyIndex)
    (h1 : st.historyIndex < (st.positionHistory.length : Int)) :
    (undoN k st).isSome := by
  induction k generalizing st with
  | zero => rfl
  | succ n ih =>
      unfold undoN undoHistory
      by_cases hpos : 0 < st.historyIndex
      · have hlt : (st.historyIndex - 1).toNat < st.positionHistory.length := by omega
        have hget := List.get?_eq_get hlt
        rw [if_pos hpos]
        simp only [hget, Option.some_bind]
        exact ih _ (by show (0 : Int) ≤ st.historyIndex - 1; omega)
          (by show st.historyIndex - 1 < (st.positionHistory.length : Int); omega)
      · rw [if_neg hpos]
        simp only [Option.some_bind]
        exact ih st h0 h1

/-- From index `n` (with the live store equal to snapshot `n`), `n` undos
succeed and land on index 0 with the live store equal to the oldest retained
snapshot; the stack itself is untouched. -/
theorem undoN_reaches_bottom (n : Nat) (st : EditorState)
    (hidx : st.historyIndex = (n : Int))
    (hlt : n < st.positionHistory.length)
    (htop : st.positionHistory.get? n = some st.itemPositions) :
    ∃ stF, undoN n st = some stF ∧ stF.historyIndex = 0 ∧
      stF.positionHistory = st.positionHistory ∧
      stF.positionHistory.head? = some stF.itemPositions := by
  induction n generalizing st with
  | zero =>
      refine ⟨st, rfl, hidx, rfl, ?_⟩
      rw [← List.get?_zero]
      exact htop
  | succ n ih =>
      have hpos : 0 < st.historyIndex := by omega
      have hlt2 : (st.historyIndex - 1).toNat < st.positionHistory.length := by omega
      have hget := List.get?_eq_get hlt2
      have hn : (st.historyIndex - 1).toNat = n := by omega
      obtain ⟨stF, h1, h2, h3, h4⟩ :=
        ih { st with
              historyIndex := st.historyIndex - 1
              itemPositions := st.positionHistory.get ⟨(st.historyIndex - 1).toNat, hlt2⟩ }
          (by show st.historyIndex - 1 = (n : Int); omega)
          (by show n < st.positionHistory.length; omega)
          (by show st.positionHistory.get? n =
                some (st.positionHistory.get ⟨(st.historyIndex - 1).toNat, hlt2⟩)
              rw [← hn, hget])
      refine ⟨stF, ?_, h2, h3, h4⟩
      unfold undoN undoHistory
      rw [if_pos hpos]
      simp only [hget, Option.some_bind]
      exact h1

/-! ## Claim theorems -/

/-- C10: `savePositions` leaves the live store unchanged — the normalization
(dropping `opacity >= 1.0`, `rotation === 0`, `scale === "1"`, adding an
explicit `id` when `filepath` is falsy) happens on per-record copies, and
the serialized array is exactly the per-record normalization of the store. -/
theorem savePositions_leaves_store_unchanged (s : Store) :
    (savePositionsRun s).1 = s ∧
    (savePositionsRun s).2 = s.map (fun e => saveEntry e.1 e.2) := by
  induction s with
  | nil => exact ⟨rfl, rfl⟩
  | cons hd tl ih =>
      unfold savePositionsRun
      simp [ih.1, ih.2]

/-- C2 counterexample: a record with `pageIndex = 5` reconciled against a DOM
holding only pages 0 and 1 is placed on page 0 (with a warning), not on the
highest-index available page 1 as the claim states. -/
theorem applyPositions_overflow_counterexample :
    resolveTargetPage [0, 1] (some 5) = PagePlacement.placed 0 true ∧
    ∀ w, resolveTargetPage [0, 1] (some 5) ≠ PagePlacement.placed 1 w := by
  decide

/-- C2 (amended): whenever the page container for `pageIndex ?? 0` is
missing — whether the index exceeds the available pages or not —
`applyPositions` falls back to page 0 with a warning, and skips the item
only if page 0 is missing too; it never falls back to the highest-index
page. -/
theorem applyPositions_fallback_page_zero (pages : List Nat) (pageIndex : Option Nat)
    (h : pageIndex.getD 0 ∉ pages) :
    resolveTargetPage pages pageIndex =
      if 0 ∈ pages then PagePlacement.placed 0 true else PagePlacement.skipped := by
  unfold resolveTargetPage
  simp [h]

theorem applyPositions_fallback_page_zero_witness :
    (5 : Nat) ∉ ([0, 1] : List Nat) ∧
    resolveTargetPage [0, 1] (some 5) =
      if 0 ∈ ([0, 1] : List Nat) then PagePlacement.placed 0 true
      else PagePlacement.skipped :=
  ⟨by decide, applyPositions_fallback_page_zero [0, 1] (some 5) (by decide)⟩

/-- C1 counterexample: after an upsert whose payload contains `scale: "1"`
(the payload every file drop passes), `get` still yields a record carrying
the `scale` field — `updateItemPosition` does not remove a `scale` of `"1"`,
so the claim that all three default-valued fields are normalized on every
mutation is false. -/
theorem upsert_keeps_scale_one_counterexample :
    (objGet (updateItemPosition [] "a_html" c1DropData) "a_html").map
      ItemPosition.scale = some (some "1") := by
  decide

/-- C1 (amended): `updateItemPosition` normalizes on every mutation the
opacity (a stored opacity is `< 1.0`) and the rotation (a stored rotation is
nonzero), but not the scale; a `scale` of `"1"` survives in the store and is
stripped only when the record is serialized for saving. -/
theorem upsert_normalizes_opacity_rotation (s : Store) (id : String)
    (p : PositionUpdate) (r : ItemPosition)
    (h : objGet (updateItemPosition s id p) id = some r) :
    (∀ q, r.opacity = some q → q < 1) ∧
    (∀ z, r.rotation = some z → z ≠ 0) ∧
    (∀ saveId, (saveEntry saveId r).scale ≠ some "1") := by
  have hM := Option.some.inj ((updateItemPosition_get s id p).symm.trans h)
  subst hM
  refine ⟨?_, ?_, ?_⟩
  · intro q hq
    rw [cleanupRotation_opacity] at hq
    exact cleanupOpacity_opacity_lt_one _ _ hq
  · intro z hz
    exact cleanupRotation_rotation_ne_zero _ _ hz
  · intro saveId
    exact saveEntry_scale_ne_one _ _

theorem upsert_normalizes_opacity_rotation_witness :
    (∀ q, c1WitnessRecord.opacity = some q → q < 1) ∧
    (∀ z, c1WitnessRecord.rotation = some z → z ≠ 0) ∧
    (∀ saveId, (saveEntry saveId c1WitnessRecord).scale ≠ some "1") :=
  upsert_normalizes_opacity_rotation [] "a"
    { left := some "1px", top := some "2px", opacity := some (some 2),
      rotation := some (some 0), scale := some (some "1") }
    c1WitnessRecord (by decide)

/-- C3 counterexample: the deletion branch of `handleKeyDown` calls
`savePositions()` directly — its operation trace contains a `save` not
preceded by any `record`, and concretely deleting the only item saves a
payload differing from the pre-deletion store while the history stack is
left untouched.  So not every discrete-action save is preceded by a history
push. -/
theorem deletion_saves_without_record_counterexample :
    savesPrecededByRecord handleDeleteOps = false ∧
    (handleDeleteState c3State "a").1.positionHistory = c3State.positionHistory ∧
    (handleDeleteState c3State "a").2 ≠ (savePositionsRun c3State.itemPositions).2 := by
  decide

/-- C3 (amended): an element drop, a file drop and a modifier-held wheel
tick each push exactly one history record immediately before their save,
and the snapshot pushed is the store state after the gesture's mutation;
the deletion action, however, saves with no history push at all. -/
theorem record_precedes_save_for_drop_and_wheel :
    savesPrecededByRecord handleDropOps = true ∧
    (∀ b, savesPrecededByRecord (handleWheelTickOps b) = true) ∧
    savesPrecededByRecord addNewItemOps = true ∧
    handleDropOps.count CoreOp.record = 1 ∧
    (∀ b, (handleWheelTickOps b).count CoreOp.record = 1) ∧
    handleDeleteOps.count CoreOp.record = 0 ∧
    (∀ st id p, (handleDropState st id p).positionHistory.getLast? =
        some (updateItemPosition st.itemPositions id p) ∧
      (handleDropState st id p).itemPositions =
        updateItemPosition st.itemPositions id p) := by
  refine ⟨by decide, by decide, by decide, by decide, by decide, by decide, ?_⟩
  intro st id p
  exact ⟨addStateToHistory_getLast _, addStateToHistory_itemPositions _⟩

/-- C9: a file dropped at viewport point `(dropX, dropY)` over the page with
index `pageIndex` whose bounding box starts at `(rect.left, rect.top)` is
stored with `left = (dropX − rect.left)px`, `top = (dropY − rect.top)px`
and that page's index; in particular a drop at (150, 300) over page 1
starting at (50, 20) yields `left="100px"`, `top="280px"`, `pageIndex=1`. -/
theorem drop_placement (filePath parserName : String) (dropX dropY : ℚ)
    (rect : PageRect) (pageIndex : Nat) (wh : Option (ℚ × ℚ))
    (s : Store) (id : String) :
    (∃ r, objGet (updateItemPosition s id
          (addNewItemPositionData filePath parserName dropX dropY rect pageIndex wh)) id
        = some r ∧
      r.left = jsNumToString (dropX - rect.left) ++ "px" ∧
      r.top = jsNumToString (dropY - rect.top) ++ "px" ∧
      r.pageIndex = some pageIndex) ∧
    (∃ r, objGet (updateItemPosition [] "song_txt"
          (addNewItemPositionData "/user/song.txt" "chord" 150 300 ⟨50, 20⟩ 1 none)) "song_txt"
        = some r ∧ r.left = "100px" ∧ r.top = "280px" ∧ r.pageIndex = some 1) := by
  have hgen : ∀ (fp pn : String) (dX dY : ℚ) (rc : PageRect) (pk : Nat)
      (wh2 : Option (ℚ × ℚ)) (s2 : Store) (id2 : String),
      ∃ r, objGet (updateItemPosition s2 id2
            (addNewItemPositionData fp pn dX dY rc pk wh2)) id2 = some r ∧
        r.left = jsNumToString (dX - rc.left) ++ "px" ∧
        r.top = jsNumToString (dY - rc.top) ++ "px" ∧
        r.pageIndex = some pk := by
    intro fp pn dX dY rc pk wh2 s2 id2
    refine ⟨_, updateItemPosition_get _ _ _, ?_, ?_, ?_⟩
    · rw [cleanupRotation_left, cleanupOpacity_left]
      rcases wh2 with _ | ⟨w, ht⟩ <;> simp [addNewItemPositionData, mergePosition]
    · rw [cleanupRotation_top, cleanupOpacity_top]
      rcases wh2 with _ | ⟨w, ht⟩ <;> simp [addNewItemPositionData, mergePosition]
    · rw [cleanupRotation_pageIndex, cleanupOpacity_pageIndex]
      rcases wh2 with _ | ⟨w, ht⟩ <;> simp [addNewItemPositionData, mergePosition]
  refine ⟨hgen filePath parserName dropX dropY rect pageIndex wh s id, ?_⟩
  obtain ⟨r, hr, hL, hT, hP⟩ :=
    hgen "/user/song.txt" "chord" 150 300 ⟨50, 20⟩ 1 none [] "song_txt"
  refine ⟨r, hr, ?_, ?_, hP⟩
  · rw [hL]
    show jsNumToString ((150 : ℚ) - 50) ++ "px" = "100px"
    rw [show ((150 : ℚ) - 50) = 100 by norm_num]
    rfl
  · rw [hT]
    show jsNumToString ((300 : ℚ) - 20) ++ "px" = "280px"
    rw [show ((300 : ℚ) - 20) = 280 by norm_num]
    rfl

/-- C6: after any number of sequential `record()` calls (each recording the
store after a mutation) from an initialized history, the stack holds at most
100 snapshots — exactly the newest 100 of everything pushed, so exceeding
the bound evicts the oldest — with the index at the top (shifted down on
eviction so the relative position is preserved), and repeated `undo()` from
the top never throws and reaches the earliest retained snapshot. -/
theorem history_bounded_and_undoable (s0 : Store) (ms : List Store) :
    (recordChain s0 ms).positionHistory.length ≤ 100 ∧
    (recordChain s0 ms).positionHistory = keepLast (s0 :: ms) ∧
    (recordChain s0 ms).historyIndex =
      ((recordChain s0 ms).positionHistory.length : Int) - 1 ∧
    (∀ k, (undoN k (recordChain s0 ms)).isSome) ∧
    (∃ stF, undoN ((recordChain s0 ms).positionHistory.length - 1) (recordChain s0 ms)
        = some stF ∧
      stF.historyIndex = 0 ∧
      stF.positionHistory.head? = some stF.itemPositions ∧
      (recordChain s0 ms).positionHistory.head? = some stF.itemPositions) := by
  have hinit : recordChain s0 ms =
      ms.foldl (fun st m => addStateToHistory { st with itemPositions := m })
        { itemPositions := s0, positionHistory := [s0], historyIndex := 0 } := rfl
  obtain ⟨ha, hb, hc, hd, he⟩ :=
    recordChain_fold ms { itemPositions := s0, positionHistory := [s0], historyIndex := 0 }
      (by norm_num) (by norm_num) (by norm_num) rfl
  rw [hinit]
  have ha2 : (ms.foldl (fun st m => addStateToHistory { st with itemPositions := m })
      { itemPositions := s0, positionHistory := [s0], historyIndex := 0 }).positionHistory
      = keepLast (s0 :: ms) := by
    rw [ha, List.singleton_append]
  refine ⟨hd, ha2, hb, ?_, ?_⟩
  · intro k
    exact undoN_isSome k _ (by omega) (by omega)
  · have htop := he
    rw [List.getLast?_eq_get?] at htop
    obtain ⟨stF, h1, h2, h3, h4⟩ :=
      undoN_reaches_bottom
        ((ms.foldl (fun st m => addStateToHistory { st with itemPositions := m })
          { itemPositions := s0, positionHistory := [s0], historyIndex := 0 }).positionHistory.length - 1)
        _ (by omega) (by omega) htop
    refine ⟨stF, h1, h2, h4, ?_⟩
    rw [← h3]
    exact h4

/-- C5 counterexample: when the fetched `objects` array holds one valid
record followed by a malformed (`null`) entry, the populate loop throws
after storing the first record; the catch block falls back to the default
arrangement **without clearing the store**, so the final state is
half-populated — it still holds the partially loaded record `"a"` (and the
initialized history snapshots that half-populated store). -/
theorem load_failure_half_populated_counterexample :
    (loadPositions c5EmptyDom c5FreshState
        (LoadFetch.okJson [some c5LoadedRecord, none])).itemPositions =
      [("a", c5LoadedRecord)] ∧
    (loadPositions c5EmptyDom c5FreshState
        (LoadFetch.okJson [some c5LoadedRecord, none])).positionHistory =
      [[("a", c5LoadedRecord)]] ∧
    (loadPositions c5EmptyDom c5FreshState
        (LoadFetch.okJson [some c5LoadedRecord, none])).historyIndex = 0 := by
  decide

/-- C5 (amended): if the initial load fails before the store is touched —
`GET /load-positions` 404, a rejected fetch, or a non-OK status — then
(provided at least one page container exists) the default-arrangement
algorithm runs, every draggable DOM item with an id ends up positioned in
the store, and the History Manager is initialized with exactly the resulting
arrangement.  (A failure while populating fetched records also triggers this
fallback but does not clear the already-populated part of the store.) -/
theorem load_404_falls_back_to_defaults (dom : Dom) (st : EditorState)
    (f : LoadFetch) (hp : dom.pages ≠ [])
    (hf : f = LoadFetch.notFound ∨ f = LoadFetch.fetchFailure ∨ f = LoadFetch.httpError) :
    (loadPositions dom st f).historyIndex = 0 ∧
    (loadPositions dom st f).positionHistory = [(loadPositions dom st f).itemPositions] ∧
    (∀ item ∈ dom.items, item.id ≠ "" →
      (objGet (loadPositions dom st f).itemPositions item.id).isSome) := by
  rcases hf with rfl | rfl | rfl <;> exact initializeDefaultPositions_spec dom st hp

theorem load_404_falls_back_to_defaults_witness :
    (c5WitnessDom.pages ≠ [] ∧
      (LoadFetch.notFound = LoadFetch.notFound ∨
        LoadFetch.notFound = LoadFetch.fetchFailure ∨
        LoadFetch.notFound = LoadFetch.httpError)) ∧
    ((loadPositions c5WitnessDom c5FreshState LoadFetch.notFound).historyIndex = 0 ∧
      (loadPositions c5WitnessDom c5FreshState LoadFetch.notFound).positionHistory =
        [(loadPositions c5WitnessDom c5FreshState LoadFetch.notFound).itemPositions] ∧
      (∀ item ∈ c5WitnessDom.items, item.id ≠ "" →
        (objGet (loadPositions c5WitnessDom c5FreshState LoadFetch.notFound).itemPositions
          item.id).isSome)) :=
  ⟨⟨by simp [c5WitnessDom], Or.inl rfl⟩,
    load_404_falls_back_to_defaults c5WitnessDom c5FreshState LoadFetch.notFound
      (by simp [c5WitnessDom]) (Or.inl rfl)⟩

/-- C7: for every initial store A, after mutating the store to B and calling
`record()`, `undo()` restores the live store to a state deep-equal to A (and
returns that snapshot copy), and a subsequent `redo()` restores it deep-equal
to B.  Snapshots and the live store are compared by structural (deep)
equality; restoration installs a copy of the snapshot, never the snapshot
itself. -/
theorem undo_redo_roundtrip (A B : Store) :
    ∃ st1 stu str,
      st1 = addStateToHistory
        { initializeHistory
            { itemPositions := A, positionHistory := [], historyIndex := -1 }
          with itemPositions := B } ∧
      undoHistory st1 = some (stu, some A) ∧ stu.itemPositions = A ∧
      redoHistory stu = some (str, some B) ∧ str.itemPositions = B := by
  refine ⟨{ itemPositions := B, positionHistory := [A, B], historyIndex := 1 },
          { itemPositions := A, positionHistory := [A, B], historyIndex := 0 },
          { itemPositions := B, positionHistory := [A, B], historyIndex := 1 },
          ?_, ?_, rfl, ?_, rfl⟩
  · simp [initializeHistory, addStateToHistory]
  · simp [undoHistory]
  · simp [redoHistory]

/-- C8: from any history whose index is not at the end, `record()` of a new
state C discards the entire redo-able future tail before appending C, and
the subsequent `redo()` is a no-op returning none and leaving the state
unchanged. -/
theorem branching_discards_future (st : EditorState) (C : Store)
    (h0 : 0 ≤ st.historyIndex)
    (h1 : st.historyIndex < (st.positionHistory.length : Int) - 1)
    (h2 : st.positionHistory.length ≤ 100) :
    addStateToHistory { st with itemPositions := C } =
      { itemPositions := C,
        positionHistory := st.positionHistory.take (st.historyIndex + 1).toNat ++ [C],
        historyIndex := st.historyIndex + 1 } ∧
    redoHistory (addStateToHistory { st with itemPositions := C }) =
      some (addStateToHistory { st with itemPositions := C }, none) := by
  have hstep : addStateToHistory { st with itemPositions := C } =
      { itemPositions := C,
        positionHistory := st.positionHistory.take (st.historyIndex + 1).toNat ++ [C],
        historyIndex := st.historyIndex + 1 } := by
    dsimp only [addStateToHistory]
    rw [if_pos h1]
    rw [if_neg ?hbound]
    case hbound =>
      simp only [List.length_append, List.length_take, List.length_cons, List.length_nil]
      omega
  refine ⟨hstep, ?_⟩
  rw [hstep]
  dsimp only [redoHistory]
  rw [if_neg ?hend]
  case hend =>
    simp only [List.length_append, List.length_take, List.length_cons, List.length_nil]
    omega

theorem updateAndSavePositions_itemPositions (st : EditorState) :
    (updateAndSavePositions st).1.itemPositions = st.itemPositions :=
  addStateToHistory_itemPositions st

theorem mergePosition_opacity (old : ItemPosition) (p : PositionUpdate) :
    (mergePosition old p).opacity = p.opacity.getD old.opacity := rfl

theorem cleanup_opacity_of_lt (m : ItemPosition) (v : ℚ)
    (hm : m.opacity = some v) (hv : v < 1) :
    (cleanupRotation (cleanupOpacity m)).opacity = some v := by
  rw [cleanupRotation_opacity]
  unfold cleanupOpacity
  simp [hm, not_le.mpr hv]

theorem cleanup_opacity_of_none (m : ItemPosition) (hm : m.opacity = none) :
    (cleanupRotation (cleanupOpacity m)).opacity = none := by
  rw [cleanupRotation_opacity]
  unfold cleanupOpacity
  simp [hm]

/-- After one wheel opacity tick, the stored opacity of the adjusted item
equals the opacity style written back to the DOM. -/
theorem handleWheelOpacityTick_store (st : EditorState) (dom : WheelItemDom)
    (id : String) (pageIndex : Nat) (d : Int) :
    (objGet ((handleWheelOpacityTick st dom id pageIndex d).1.itemPositions) id).map
        ItemPosition.opacity =
      some ((handleWheelOpacityTick st dom id pageIndex d).2.styleOpacity) := by
  dsimp only [handleWheelOpacityTick]
  rw [updateAndSavePositions_itemPositions, updateItemPosition_get]
  by_cases hv : wheelOpacityValue dom.styleOpacity d < 1
  · rw [Option.map_some']
    rw [cleanup_opacity_of_lt _ (wheelOpacityValue dom.styleOpacity d) (by simp [mergePosition, hv]) hv]
    simp [hv]
  · rw [Option.map_some']
    rw [cleanup_opacity_of_none _ (by simp [mergePosition, hv])]
    simp [hv]

/-- The opacity style written back by one tick. -/
theorem handleWheelOpacityTick_style (st : EditorState) (dom : WheelItemDom)
    (id : String) (pageIndex : Nat) (d : Int) :
    (handleWheelOpacityTick st dom id pageIndex d).2.styleOpacity =
      if wheelOpacityValue dom.styleOpacity d < 1 then
        some (wheelOpacityValue dom.styleOpacity d)
      else none := rfl

theorem wheelOpacityTicks_cons (st : EditorState) (dom : WheelItemDom)
    (id : String) (pageIndex : Nat) (d : Int) (ds : List Int) :
    wheelOpacityTicks st dom id pageIndex (d :: ds) =
      wheelOpacityTicks (handleWheelOpacityTick st dom id pageIndex d).1
        (handleWheelOpacityTick st dom id pageIndex d).2 id pageIndex ds := rfl

theorem wheelOpacityTicks_nil (st : EditorState) (dom : WheelItemDom)
    (id : String) (pageIndex : Nat) :
    wheelOpacityTicks st dom id pageIndex [] = (st, dom) := rfl

theorem styleAfterTicks_cons (o : Option ℚ) (d : Int) (ds : List Int) :
    styleAfterTicks o (d :: ds) =
      styleAfterTicks
        (if wheelOpacityValue o d < 1 then some (wheelOpacityValue o d) else none) ds := rfl

/-- The DOM opacity style after a tick sequence is `styleAfterTicks`. -/
theorem wheelOpacityTicks_style (st : EditorState) (dom : WheelItemDom)
    (id : String) (pageIndex : Nat) (ticks : List Int) :
    (wheelOpacityTicks st dom id pageIndex ticks).2.styleOpacity =
      styleAfterTicks dom.styleOpacity ticks := by
  induction ticks generalizing st dom with
  | nil => rfl
  | cons d ds ih =>
      rw [wheelOpacityTicks_cons, ih, handleWheelOpacityTick_style, styleAfterTicks_cons]

/-- After a nonempty tick sequence, the stored opacity equals the final DOM
opacity style. -/
theorem wheelOpacityTicks_store (st : EditorState) (dom : WheelItemDom)
    (id : String) (pageIndex : Nat) (ticks : List Int) (hne : ticks ≠ []) :
    (objGet ((wheelOpacityTicks st dom id pageIndex ticks).1.itemPositions) id).map
        ItemPosition.opacity =
      some ((wheelOpacityTicks st dom id pageIndex ticks).2.styleOpacity) := by
  induction ticks generalizing st dom with
  | nil => exact absurd rfl hne
  | cons d ds ih =>
      rw [wheelOpacityTicks_cons]
      rcases ds with _ | ⟨d2, ds2⟩
      · rw [wheelOpacityTicks_nil]
        exact handleWheelOpacityTick_store st dom id pageIndex d
      · exact ih (handleWheelOpacityTick st dom id pageIndex d).1
          (handleWheelOpacityTick st dom id pageIndex d).2 (by simp)

theorem styleAfterTicks_nil (o : Option ℚ) : styleAfterTicks o [] = o := rfl

theorem wheelOpacityValue_nonneg (o : Option ℚ) (d : Int) :
    0 ≤ wheelOpacityValue o d := le_max_left 0 _

/-- Any opacity value surviving a nonempty tick sequence lies in [0,1). -/
theorem styleAfterTicks_range (o : Option ℚ) (ticks : List Int) (hne : ticks ≠ [])
    (q : ℚ) (h : styleAfterTicks o ticks = some q) : 0 ≤ q ∧ q < 1 := by
  induction ticks generalizing o with
  | nil => exact absurd rfl hne
  | cons d ds ih =>
      rw [styleAfterTicks_cons] at h
      rcases ds with _ | ⟨d2, ds2⟩
      · rw [styleAfterTicks_nil] at h
        by_cases hv : wheelOpacityValue o d < 1
        · rw [if_pos hv] at h
          cases h
          exact ⟨wheelOpacityValue_nonneg o d, hv⟩
        · rw [if_neg hv] at h
          exact Option.noConfusion h
      · exact ih _ (by simp) h

/-- C4 counterexample: twenty wheel-down opacity ticks starting from absent
opacity (1.0) step the value down to `Math.max(0, …) = 0`, and since
`0 < 1.0` the handler stores it: the record ends with `opacity = 0`, so a
stored opacity does not always lie in (0,1]. -/
theorem wheel_opacity_stores_zero_counterexample :
    (objGet ((wheelOpacityTicks c4State c4Dom "x" 0 (List.replicate 20 1)).1.itemPositions) "x").map
      ItemPosition.opacity = some (some 0) := by
  rw [wheelOpacityTicks_store c4State c4Dom "x" 0 (List.replicate 20 1) (by simp),
    wheelOpacityTicks_style]
  show some (styleAfterTicks none (List.replicate 20 1)) = some (some 0)
  norm_num [List.replicate, styleAfterTicks_cons, styleAfterTicks_nil,
    wheelOpacityValue, opacityStep, max_def, min_def]

/-- C4 (amended): after any nonempty sequence of wheel opacity ticks, the
stored opacity of the adjusted item is either absent or a value `q` with
`0 ≤ q < 1`: values reaching 1.0 are normalized to absent, but the
`Math.max(0, ·)` clamp makes exactly 0 storable, so the stored interval is
[0,1), not (0,1]. -/
theorem wheel_opacity_range (st : EditorState) (dom : WheelItemDom) (id : String)
    (pageIndex : Nat) (ticks : List Int) (hne : ticks ≠ []) (q : ℚ)
    (hq : (objGet ((wheelOpacityTicks st dom id pageIndex ticks).1.itemPositions) id).map
        ItemPosition.opacity = some (some q)) :
    0 ≤ q ∧ q < 1 := by
  rw [wheelOpacityTicks_store st dom id pageIndex ticks hne, wheelOpacityTicks_style] at hq
  exact styleAfterTicks_range dom.styleOpacity ticks hne q (Option.some.inj hq)

theorem wheel_opacity_range_witness :
    (([1] : List Int) ≠ [] ∧
      (objGet ((wheelOpacityTicks c4State c4Dom "x" 0 [1]).1.itemPositions) "x").map
        ItemPosition.opacity = some (some (19/20))) ∧
    (0 ≤ (19/20 : ℚ) ∧ (19/20 : ℚ) < 1) := by
  have hq : (objGet ((wheelOpacityTicks c4State c4Dom "x" 0 [1]).1.itemPositions) "x").map
      ItemPosition.opacity = some (some (19/20)) := by
    rw [wheelOpacityTicks_store c4State c4Dom "x" 0 [1] (by simp), wheelOpacityTicks_style]
    show some (styleAfterTicks none [1]) = some (some (19/20))
    norm_num [styleAfterTicks_cons, styleAfterTicks_nil, wheelOpacityValue, opacityStep,
      max_def, min_def]
  exact ⟨⟨by simp, hq⟩, wheel_opacity_range c4State c4Dom "x" 0 [1] (by simp) (19/20) hq⟩

theorem branching_discards_future_witness :
    ((0 : Int) ≤ c8State.historyIndex ∧
      c8State.historyIndex < (c8State.positionHistory.length : Int) - 1 ∧
      c8State.positionHistory.length ≤ 100) ∧
    (addStateToHistory { c8State with itemPositions := c8NewState } =
      { itemPositions := c8NewState,
        positionHistory :=
          c8State.positionHistory.take (c8State.historyIndex + 1).toNat ++ [c8NewState],
        historyIndex := c8State.historyIndex + 1 } ∧
    redoHistory (addStateToHistory { c8State with itemPositions := c8NewState }) =
      some (addStateToHistory { c8State with itemPositions := c8NewState }, none)) :=
  ⟨⟨by decide, by decide, by decide⟩,
    branching_discards_future c8State c8NewState (by decide) (by decide) (by decide)⟩

end LayoutTool
